import Mathlib

/-!
# Verification of the Sketchy web application (`app.py`)

A shallow embedding of the Flask application in `app.py`: the SQLite user
table, the cookie session, the two upload stores and every route handler are
modelled as pure Lean functions over an explicit `AppState`.  User-supplied
data (usernames, passwords, filenames) is modelled as `List Char`; the Python
string operations used by the code (`str.strip`, `str.rsplit`, `str.lower`,
`str.split`, werkzeug's `secure_filename`) are translated character by
character.
-/

namespace Sketchy

/-- The set of characters Python's `str.strip()` / `str.split()` treat as
whitespace (`Py_UNICODE_ISSPACE`): ASCII control whitespace 0x09-0x0D,
0x1C-0x1F, space, and the Unicode space characters. -/
def pyIsSpace (c : Char) : Bool :=
  [9, 10, 11, 12, 13, 28, 29, 30, 31, 32, 133, 160, 5760,
   8192, 8193, 8194, 8195, 8196, 8197, 8198, 8199, 8200, 8201, 8202,
   8232, 8233, 8239, 8287, 12288].contains c.toNat

/-- Python `s.strip()`: remove whitespace from both ends. -/
def pyStrip (l : List Char) : List Char :=
  ((l.dropWhile pyIsSpace).reverse.dropWhile pyIsSpace).reverse

/-- Python `s.lower()`, for the ASCII fragment: lowercase each character
(`Char.toLower` maps `A`-`Z` to `a`-`z` and fixes everything else). -/
def pyLower (l : List Char) : List Char :=
  l.map Char.toLower

/-- Python `"_".join(s.split())` — split `s` on runs of whitespace, drop the
empty pieces, join the tokens with a single underscore.  The flag records
whether we are directly behind a token character, so that a later whitespace
run must emit a separator if another token follows. -/
def sq : Bool → List Char → List Char
  | _, [] => []
  | inTok, c :: t =>
    if pyIsSpace c then
      if inTok then
        match sq false t with
        | [] => []
        | r => '_' :: r
      else sq false t
    else c :: sq true t

/-- The character class kept by werkzeug's `_filename_ascii_strip_re`
(`[A-Za-z0-9_.-]`); every other character is deleted. -/
def keepChar (c : Char) : Bool :=
  (65 ≤ c.toNat && c.toNat ≤ 90) || (97 ≤ c.toNat && c.toNat ≤ 122) ||
  (48 ≤ c.toNat && c.toNat ≤ 57) || c == '_' || c == '.' || c == '-'

/-- The characters stripped from both ends by werkzeug's final
`.strip("._")`. -/
def dotOrUnderscore (c : Char) : Bool :=
  c == '.' || c == '_'

/-- werkzeug's `secure_filename`, on a POSIX host (`os.sep = "/"`,
`os.path.altsep = None`, `os.name != "nt"`):
`unicodedata.normalize("NFKD", f).encode("ascii", "ignore")` (modelled, for
the ASCII-relevant behaviour, as deleting the non-ASCII characters), replace
`os.sep` by a space, `"_".join(f.split())`, delete every character outside
`[A-Za-z0-9_.-]`, and `.strip("._")`. -/
def secure_filename (l : List Char) : List Char :=
  let ascii := l.filter (fun c => c.toNat < 128)
  let sep := ascii.map (fun c => if c = '/' then ' ' else c)
  let joined := sq false sep
  let kept := joined.filter keepChar
  ((kept.dropWhile dotOrUnderscore).reverse.dropWhile dotOrUnderscore).reverse

/-- The characters of a filename after its last dot (the dot-free tail); the
whole filename when it has no dot. -/
def afterLastDot (l : List Char) : List Char :=
  (l.reverse.takeWhile (fun c => c != '.')).reverse

/-- Python `filename.rsplit(".", 1)`: split at the last dot, giving the two
pieces, or the one-element list when there is no dot. -/
def rsplitDot1 (l : List Char) : List (List Char) :=
  match l.reverse.dropWhile (fun c => c != '.') with
  | [] => [l]
  | _ :: rest => [rest.reverse, afterLastDot l]

/-- `ALLOWED_IMAGE_EXTENSIONS = {"jpg", "jpeg", "png"}` (app.py line 35). -/
def ALLOWED_IMAGE_EXTENSIONS : List (List Char) :=
  [['j', 'p', 'g'], ['j', 'p', 'e', 'g'], ['p', 'n', 'g']]

/-- `ALLOWED_VIDEO_EXTENSIONS = {"mp4", "avi", "mov", "mkv"}` (app.py line 36). -/
def ALLOWED_VIDEO_EXTENSIONS : List (List Char) :=
  [['m', 'p', '4'], ['a', 'v', 'i'], ['m', 'o', 'v'], ['m', 'k', 'v']]

/-- `allowed_file` (app.py lines 74-75):
`"." in filename and filename.rsplit(".", 1)[1].lower() in allowed_exts`
(the index `[1]` is only reached under the `"." in filename` guard, so the
total `getD` default is never used). -/
def allowed_file (filename : List Char) (allowed_exts : List (List Char)) : Bool :=
  filename.contains '.' && allowed_exts.contains (pyLower ((rsplitDot1 filename).getD 1 []))

/-- A row of the `users` table: `(id, username, password_hash)`. -/
structure UserRow where
  id : Nat
  username : List Char
  password_hash : List Char
deriving DecidableEq, Repr

/-- Modelled from the spec: werkzeug's `generate_password_hash` ("stores a
hashed password"; the library itself is outside the repository).  Modelled as
an injective tagged encoding; the development relies only on the contract the
spec states — `check_password_hash` accepts exactly the password the hash was
generated from, and the stored value is never the plaintext itself — not on
cryptographic one-wayness. -/
def generate_password_hash (password : List Char) : List Char :=
  "scrypt:32768:8:1$".data ++ password

/-- Modelled from the spec: werkzeug's `check_password_hash` — "verifies the
password against a stored salted hash using a one-way comparison". -/
def check_password_hash (pwhash password : List Char) : Bool :=
  pwhash == generate_password_hash password

/-- The Flask session cookie: the keys the application uses
(`session["user_id"]`, `session["username"]`). -/
structure Session where
  user_id : Option Nat
  username : Option (List Char)
deriving DecidableEq, Repr

/-- A fresh / cleared session (`session.clear()`). -/
def emptySession : Session := ⟨none, none⟩

/-- Python truthiness of `session.get("user_id")` (app.py line 84): falsy when
the key is absent or the stored integer is `0`. -/
def sessionTruthy (s : Session) : Bool :=
  match s.user_id with
  | none => false
  | some n => n != 0

/-- A file uploaded with the request: werkzeug `FileStorage` — a client
filename plus the content bytes. -/
structure UploadedFile where
  filename : List Char
  content : List Nat
deriving DecidableEq, Repr

/-- A saved-upload directory, as a name-indexed store; `file.save` overwrites
any existing file of the same name (last write wins). -/
def storePut (store : List (List Char × List Nat)) (name : List Char)
    (content : List Nat) : List (List Char × List Nat) :=
  (name, content) :: store.filter (fun e => e.1 ≠ name)

/-- The whole mutable state of the application: the `users` table with its
`AUTOINCREMENT` counter, the session of the client under consideration, and
the two upload directories. -/
structure AppState where
  db : List UserRow
  nextId : Nat
  sess : Session
  imageFiles : List (List Char × List Nat)
  videoFiles : List (List Char × List Nat)
deriving DecidableEq, Repr

/-- The application's state at startup: empty `users` table (`init_db` only
creates the table), `AUTOINCREMENT` starting at 1, fresh session, empty
upload directories. -/
def initialState : AppState := ⟨[], 1, emptySession, [], []⟩

/-- One entry of the hard-coded `dummy_results` list (app.py lines 216-220). -/
structure MatchRecord where
  label : String
  score : Rat
  source : String
deriving DecidableEq, Repr

/-- One entry of the hard-coded `dummy_matches` list (app.py lines 254-258). -/
structure VideoMatch where
  time : String
  label : String
  score : Rat
deriving DecidableEq, Repr

/-- `dummy_results` (app.py lines 216-220). -/
def dummy_results : List MatchRecord :=
  [⟨"Person_A", 23/100, "suspect_ali_1.jpg"⟩,
   ⟨"Person_B", 41/100, "suspect_maria_2.png"⟩,
   ⟨"Unknown", 68/100, "unknown_3.png"⟩]

/-- `dummy_matches` (app.py lines 254-258). -/
def dummy_matches : List VideoMatch :=
  [⟨"00:05", "Person_A", 27/100⟩,
   ⟨"00:23", "Person_B", 35/100⟩,
   ⟨"01:02", "Unknown", 62/100⟩]

/-- A flash message: `flash(message, category)`. -/
structure Flash where
  message : String
  category : String
deriving DecidableEq, Repr

/-- The HTTP response bodies the application can produce: a redirect
(`redirect(url_for(...))`) or one of the rendered templates with the data
passed to `render_template`. -/
inductive Response where
  | redirect (target : String)
  | renderLogin
  | renderRegister
  | renderIndex
  | renderImageResults (query_image : List Char) (results : List MatchRecord)
  | renderVideoResults (video_name : List Char) (vmatches : List VideoMatch)
deriving DecidableEq, Repr

/-- A handler's observable outcome: the response plus the flash messages the
handler emitted during this request. -/
structure HttpResult where
  response : Response
  flashes : List Flash
deriving DecidableEq, Repr

/-- The body of `register` for a POST (app.py lines 98-136), after the three
`request.form.get(...).strip()` lines: the four validations in source order,
then the insert.  `su`, `sp`, `sc` are the already-stripped fields. -/
def register_core (st : AppState) (su sp sc : List Char) : HttpResult × AppState :=
  if su = [] ∨ sp = [] ∨ sc = [] then
    (⟨.redirect "/register", [⟨"Please fill in all fields.", "warning"⟩]⟩, st)
  else if sp ≠ sc then
    (⟨.redirect "/register", [⟨"Passwords do not match.", "warning"⟩]⟩, st)
  else if su.length < 3 then
    (⟨.redirect "/register", [⟨"Username must be at least 3 characters.", "warning"⟩]⟩, st)
  else if (st.db.find? (fun r => r.username == su)).isSome then
    (⟨.redirect "/register", [⟨"Username is already taken. Please choose another.", "warning"⟩]⟩, st)
  else
    (⟨.redirect "/login", [⟨"Account created successfully. Please log in.", "success"⟩]⟩,
     { st with db := st.db ++ [⟨st.nextId, su, generate_password_hash sp⟩],
               nextId := st.nextId + 1 })

/-- `register`, POST branch (app.py lines 93-136): strip the three form
fields, then run the validations and, on success, insert the row. -/
def register_post (st : AppState) (username password confirm_password : List Char) :
    HttpResult × AppState :=
  register_core st (pyStrip username) (pyStrip password) (pyStrip confirm_password)

/-- The body of `login` for a POST after stripping (app.py lines 150-164):
look the username up, check the hash, set the session on success; either
failure produces the same generic message and re-renders the login page. -/
def login_core (st : AppState) (su sp : List Char) : HttpResult × AppState :=
  match st.db.find? (fun r => r.username == su) with
  | some user =>
    if check_password_hash user.password_hash sp then
      (⟨.redirect "/", [⟨"Logged in successfully.", "success"⟩]⟩,
       { st with sess := ⟨some user.id, some user.username⟩ })
    else
      (⟨.renderLogin, [⟨"Invalid username or password.", "danger"⟩]⟩, st)
  | none =>
    (⟨.renderLogin, [⟨"Invalid username or password.", "danger"⟩]⟩, st)

/-- `login`, POST branch (app.py lines 141-165). -/
def login_post (st : AppState) (username password : List Char) : HttpResult × AppState :=
  login_core st (pyStrip username) (pyStrip password)

/-- The body of `logout` (app.py lines 170-176), i.e. the view inside the
`login_required` decorator: clear the session, flash, redirect to login. -/
def logout_view (st : AppState) : HttpResult × AppState :=
  (⟨.redirect "/login", [⟨"You have been logged out.", "info"⟩]⟩,
   { st with sess := emptySession })

/-- The body of `search_image` (app.py lines 195-228), i.e. the view inside
the decorator.  `not file or file.filename == ""` — a missing field, and
werkzeug's falsy empty-filename `FileStorage`, take the first branch. -/
def search_image (st : AppState) (file : Option UploadedFile) : HttpResult × AppState :=
  match file with
  | none =>
    (⟨.redirect "/", [⟨"Please choose a sketch or photo to upload.", "warning"⟩]⟩, st)
  | some f =>
    if f.filename = [] then
      (⟨.redirect "/", [⟨"Please choose a sketch or photo to upload.", "warning"⟩]⟩, st)
    else if !allowed_file f.filename ALLOWED_IMAGE_EXTENSIONS then
      (⟨.redirect "/", [⟨"Unsupported image type. Please upload a JPG or PNG.", "warning"⟩]⟩, st)
    else
      (⟨.renderImageResults ("uploads/images/".data ++ secure_filename f.filename) dummy_results, []⟩,
       { st with imageFiles := storePut st.imageFiles (secure_filename f.filename) f.content })

/-- The body of `search_video` (app.py lines 233-264), i.e. the view inside
the decorator. -/
def search_video (st : AppState) (file : Option UploadedFile) : HttpResult × AppState :=
  match file with
  | none =>
    (⟨.redirect "/", [⟨"Please choose a CCTV/video file to upload.", "warning"⟩]⟩, st)
  | some f =>
    if f.filename = [] then
      (⟨.redirect "/", [⟨"Please choose a CCTV/video file to upload.", "warning"⟩]⟩, st)
    else if !allowed_file f.filename ALLOWED_VIDEO_EXTENSIONS then
      (⟨.redirect "/", [⟨"Unsupported video type. Please upload MP4 / AVI / MOV / MKV.", "warning"⟩]⟩, st)
    else
      (⟨.renderVideoResults (secure_filename f.filename) dummy_matches, []⟩,
       { st with videoFiles := storePut st.videoFiles (secure_filename f.filename) f.content })

/-- The HTTP requests the application routes (app.py's URL map), with the
form / file data each carries. -/
inductive Request where
  | getIndex
  | getLogout
  | postSearchImage (file : Option UploadedFile)
  | postSearchVideo (file : Option UploadedFile)
  | postRegister (username password confirm_password : List Char)
  | postLogin (username password : List Char)
  | getLogin
  | getRegister
deriving DecidableEq, Repr

/-- The routes wrapped by the `login_required` decorator: `/`, `/logout`,
`/search-image`, `/search-video`. -/
def isProtected : Request → Bool
  | .getIndex => true
  | .getLogout => true
  | .postSearchImage _ => true
  | .postSearchVideo _ => true
  | _ => false

/-- Full request dispatch: `login_required` (app.py lines 78-87) redirects to
`/login` when `session.get("user_id")` is falsy, otherwise the view body
runs; the unprotected routes run their handlers directly. -/
def handle (st : AppState) (req : Request) : HttpResult × AppState :=
  match req with
  | .getIndex =>
    if sessionTruthy st.sess then (⟨.renderIndex, []⟩, st)
    else (⟨.redirect "/login", []⟩, st)
  | .getLogout =>
    if sessionTruthy st.sess then logout_view st
    else (⟨.redirect "/login", []⟩, st)
  | .postSearchImage file =>
    if sessionTruthy st.sess then search_image st file
    else (⟨.redirect "/login", []⟩, st)
  | .postSearchVideo file =>
    if sessionTruthy st.sess then search_video st file
    else (⟨.redirect "/login", []⟩, st)
  | .postRegister u p c => register_post st u p c
  | .postLogin u p => login_post st u p
  | .getLogin => (⟨.renderLogin, []⟩, st)
  | .getRegister => (⟨.renderRegister, []⟩, st)

/-- The upload handlers' rejection condition: no file under the field name,
an empty client filename, or an extension outside the kind's allow-list. -/
def uploadRejected (file : Option UploadedFile) (exts : List (List Char)) : Bool :=
  match file with
  | none => true
  | some f => f.filename == [] || !allowed_file f.filename exts

/-- The usernames of two distinct rows always differ. -/
def usernamesUnique (db : List UserRow) : Prop :=
  db.Pairwise (fun a b => a.username ≠ b.username)

/-- A stored filename is extension-acceptable for `exts`: either it has a dot
and the lowercased text after its last dot is allow-listed, or (when
`secure_filename` has stripped a leading dot) it has no dot and is itself an
allow-listed extension. -/
def extStoredOk (exts : List (List Char)) (name : List Char) : Prop :=
  ('.' ∈ name ∧ pyLower (afterLastDot name) ∈ exts) ∨
  ('.' ∉ name ∧ pyLower name ∈ exts)

/-- The session states the application itself produces: a cleared session, or
a logged-in one with a nonzero user id. -/
def sessionWF (s : Session) : Prop :=
  s = emptySession ∨ ∃ n, s.user_id = some n ∧ n ≠ 0

/-- The state well-formedness the application maintains: user ids are the
nonzero `AUTOINCREMENT` values, and the session is one the app can create. -/
def stateWF (st : AppState) : Prop :=
  (∀ r ∈ st.db, r.id ≠ 0) ∧ st.nextId ≠ 0 ∧ sessionWF st.sess

/-- The requests that hit the registration endpoint with form data. -/
def isRegisterReq : Request → Bool
  | .postRegister _ _ _ => true
  | _ => false

/-- The registration failure condition, over the stripped form fields: an
empty field, a password/confirmation mismatch, a username under 3
characters, or a username already present in the user table. -/
def registerRejects (st : AppState) (username password confirm_password : List Char) : Prop :=
  pyStrip username = [] ∨ pyStrip password = [] ∨ pyStrip confirm_password = [] ∨
  pyStrip password ≠ pyStrip confirm_password ∨ (pyStrip username).length < 3 ∨
  ∃ r ∈ st.db, r.username = pyStrip username

end Sketchy

namespace Sketchy

/-- `List.contains` agrees with membership under a lawful `BEq`. -/
theorem contains_iff_mem {α : Type} [BEq α] [LawfulBEq α] {a : α} {l : List α} :
    l.contains a = true ↔ a ∈ l := by
  simp [List.contains, List.elem_iff]

/-- When the filename has a dot, `rsplit(".", 1)[1]` is the text after the
last dot. -/
theorem rsplitDot1_getD_of_mem {fn : List Char} (h : '.' ∈ fn) :
    (rsplitDot1 fn).getD 1 [] = afterLastDot fn := by
  have hne : fn.reverse.dropWhile (fun c => c != '.') ≠ [] := by
    intro hnil
    have hall := List.dropWhile_eq_nil_iff.mp hnil
    have hd := hall _ (List.mem_reverse.mpr h)
    simp at hd
  obtain ⟨c, rest, hcr⟩ := List.exists_cons_of_ne_nil hne
  unfold rsplitDot1
  rw [hcr]
  rfl

/-- Characterization of `allowed_file`: a dot is present and the lowercased
text after the last dot is allow-listed. -/
theorem allowed_file_iff (fn : List Char) (exts : List (List Char)) :
    allowed_file fn exts = true ↔ '.' ∈ fn ∧ pyLower (afterLastDot fn) ∈ exts := by
  unfold allowed_file
  rw [Bool.and_eq_true]
  constructor
  · rintro ⟨h1, h2⟩
    have hm : '.' ∈ fn := contains_iff_mem.mp h1
    rw [rsplitDot1_getD_of_mem hm] at h2
    exact ⟨hm, contains_iff_mem.mp h2⟩
  · rintro ⟨h1, h2⟩
    exact ⟨contains_iff_mem.mpr h1,
      by rw [rsplitDot1_getD_of_mem h1]; exact contains_iff_mem.mpr h2⟩

end Sketchy

namespace Sketchy

/-- `Char.toLower` either shifts an ASCII capital down by 32 or fixes the
character. -/
theorem toLower_cases (c : Char) :
    (65 ≤ c.toNat ∧ c.toNat ≤ 90 ∧ (Char.toLower c).toNat = c.toNat + 32) ∨
    (¬(65 ≤ c.toNat ∧ c.toNat ≤ 90) ∧ Char.toLower c = c) := by
  simp only [Char.toLower]
  split
  next h =>
    left
    refine ⟨h.1, h.2, ?_⟩
    have hv : (Char.toNat c + 32).isValidChar := Or.inl (by omega)
    rw [Char.ofNat, dif_pos hv]
    rfl
  next h =>
    right
    exact ⟨fun hc => h ⟨hc.1, hc.2⟩, rfl⟩

/-- Lowercasing never produces or destroys a dot. -/
theorem toLower_eq_dot_iff (c : Char) : Char.toLower c = '.' ↔ c = '.' := by
  rcases toLower_cases c with ⟨h1, _, h3⟩ | ⟨_, h2⟩
  · constructor
    · intro he
      have h46 : (Char.toLower c).toNat = 46 := by rw [he]; rfl
      omega
    · intro he
      subst he
      exact absurd h1 (by decide)
  · rw [h2]

/-- `Char.toLower` is idempotent. -/
theorem toLower_toLower (c : Char) : Char.toLower (Char.toLower c) = Char.toLower c := by
  rcases toLower_cases c with ⟨h1, h2, h3⟩ | ⟨_, h2⟩
  · rcases toLower_cases (Char.toLower c) with ⟨g1, g2, _⟩ | ⟨_, g2⟩
    · exfalso; omega
    · exact g2
  · simp [h2]

/-- Booleanized form of `toLower_eq_dot_iff`. -/
theorem toLower_bne_dot (c : Char) : (Char.toLower c != '.') = (c != '.') := by
  apply Bool.eq_iff_iff.mpr
  simp only [bne_iff_ne, ne_eq]
  exact not_congr (toLower_eq_dot_iff c)

/-- Taking the text after the last dot commutes with lowercasing. -/
theorem afterLastDot_pyLower (l : List Char) :
    afterLastDot (pyLower l) = pyLower (afterLastDot l) := by
  have he : ((fun c : Char => c != '.') ∘ Char.toLower) = (fun c : Char => c != '.') :=
    funext fun c => toLower_bne_dot c
  unfold afterLastDot pyLower
  rw [← List.map_reverse, List.takeWhile_map, he, List.map_reverse]

/-- `pyLower` is idempotent. -/
theorem pyLower_pyLower (l : List Char) : pyLower (pyLower l) = pyLower l := by
  unfold pyLower
  rw [List.map_map]
  exact List.map_congr_left fun c _ => toLower_toLower c

/-- Lowercasing preserves the presence of a dot. -/
theorem mem_dot_pyLower (l : List Char) : '.' ∈ pyLower l ↔ '.' ∈ l := by
  unfold pyLower
  rw [List.mem_map]
  constructor
  · rintro ⟨c, hc, he⟩
    rwa [(toLower_eq_dot_iff c).mp he] at hc
  · intro h
    exact ⟨'.', h, rfl⟩

/-- `allowed_file` is invariant under lowercasing the filename. -/
theorem allowed_file_pyLower (fn : List Char) (exts : List (List Char)) :
    allowed_file (pyLower fn) exts = allowed_file fn exts := by
  apply Bool.eq_iff_iff.mpr
  rw [allowed_file_iff, allowed_file_iff, afterLastDot_pyLower, pyLower_pyLower,
    mem_dot_pyLower]

end Sketchy

namespace Sketchy

/-- C1: a request to a protected route (`/`, `/search-image`, `/search-video`,
`/logout`) whose session holds no user id is answered with a redirect to the
login page, no flash is emitted, and the whole application state — database,
session, both upload stores — is unchanged (the view body never runs). -/
theorem spec_C1 (st : AppState) (req : Request) (hp : isProtected req = true)
    (hs : st.sess.user_id = none) :
    handle st req = (⟨.redirect "/login", []⟩, st) := by
  have ht : sessionTruthy st.sess = false := by
    unfold sessionTruthy
    rw [hs]
  cases req
  case getIndex => simp [handle, ht]
  case getLogout => simp [handle, ht]
  case postSearchImage f => simp [handle, ht]
  case postSearchVideo f => simp [handle, ht]
  all_goals simp [isProtected] at hp

/-- Witness for C1: the dashboard on a fresh session redirects to login. -/
theorem spec_C1_witness :
    isProtected Request.getIndex = true ∧ initialState.sess.user_id = none ∧
    handle initialState Request.getIndex = (⟨.redirect "/login", []⟩, initialState) :=
  ⟨rfl, rfl, spec_C1 initialState Request.getIndex rfl rfl⟩

/-- C4: `allowed_file` accepts exactly the filenames with a dot whose
lowercased text after the last dot is in the allow-list; a dotless filename
is always rejected; and the check is case-insensitive (lowercasing the
filename never changes the verdict). -/
theorem spec_C4 (fn : List Char) :
    (allowed_file fn ALLOWED_IMAGE_EXTENSIONS = true ↔
      '.' ∈ fn ∧ pyLower (afterLastDot fn) ∈ ALLOWED_IMAGE_EXTENSIONS) ∧
    (allowed_file fn ALLOWED_VIDEO_EXTENSIONS = true ↔
      '.' ∈ fn ∧ pyLower (afterLastDot fn) ∈ ALLOWED_VIDEO_EXTENSIONS) ∧
    ('.' ∉ fn → allowed_file fn ALLOWED_IMAGE_EXTENSIONS = false ∧
      allowed_file fn ALLOWED_VIDEO_EXTENSIONS = false) ∧
    (∀ exts, allowed_file (pyLower fn) exts = allowed_file fn exts) := by
  refine ⟨allowed_file_iff fn _, allowed_file_iff fn _, fun hd => ⟨?_, ?_⟩,
    fun exts => allowed_file_pyLower fn exts⟩
  · cases h : allowed_file fn ALLOWED_IMAGE_EXTENSIONS
    · rfl
    · exact absurd ((allowed_file_iff fn _).mp h).1 hd
  · cases h : allowed_file fn ALLOWED_VIDEO_EXTENSIONS
    · rfl
    · exact absurd ((allowed_file_iff fn _).mp h).1 hd

/-- Witness for C4: a dotless filename is rejected by both allow-lists. -/
theorem spec_C4_witness :
    allowed_file "noext".data ALLOWED_IMAGE_EXTENSIONS = false ∧
    allowed_file "noext".data ALLOWED_VIDEO_EXTENSIONS = false :=
  (spec_C4 "noext".data).2.2.1 (by decide)

/-- C2: an upload whose filename passes the extension check is saved — under
the sanitized name, into the kind's store, with the uploaded bytes — and the
handler renders the results template with the fixed three-entry dummy list
(independent of the file's content, as the equality holds for every
`f.content`) and a reference to the saved file. -/
theorem spec_C2 (st : AppState) (f : UploadedFile) :
    (allowed_file f.filename ALLOWED_IMAGE_EXTENSIONS = true →
      search_image st (some f) =
        (⟨.renderImageResults ("uploads/images/".data ++ secure_filename f.filename)
            dummy_results, []⟩,
         { st with imageFiles := storePut st.imageFiles (secure_filename f.filename) f.content })) ∧
    (allowed_file f.filename ALLOWED_VIDEO_EXTENSIONS = true →
      search_video st (some f) =
        (⟨.renderVideoResults (secure_filename f.filename) dummy_matches, []⟩,
         { st with videoFiles := storePut st.videoFiles (secure_filename f.filename) f.content })) ∧
    dummy_results.length = 3 ∧ dummy_matches.length = 3 := by
  refine ⟨fun h => ?_, fun h => ?_, rfl, rfl⟩
  · have hne : f.filename ≠ [] := List.ne_nil_of_mem ((allowed_file_iff _ _).mp h).1
    simp [search_image, hne, h]
  · have hne : f.filename ≠ [] := List.ne_nil_of_mem ((allowed_file_iff _ _).mp h).1
    simp [search_video, hne, h]

/-- Witness for C2: a concrete image upload is saved and rendered with the
dummy results. -/
theorem spec_C2_witness :
    allowed_file "a.jpg".data ALLOWED_IMAGE_EXTENSIONS = true ∧
    search_image initialState (some ⟨"a.jpg".data, [7, 7]⟩) =
      (⟨.renderImageResults ("uploads/images/".data ++ secure_filename "a.jpg".data)
          dummy_results, []⟩,
       { initialState with
           imageFiles := storePut initialState.imageFiles (secure_filename "a.jpg".data) [7, 7] }) :=
  ⟨by decide, (spec_C2 initialState ⟨"a.jpg".data, [7, 7]⟩).1 (by decide)⟩

end Sketchy

namespace Sketchy

/-- C3: each upload endpoint redirects back to the dashboard with a warning
flash and leaves the whole state untouched exactly when the field is missing,
the filename is empty, or the extension is outside the kind's allow-list; in
every other case it saves the file into the kind's store. -/
theorem spec_C3 (st : AppState) (file : Option UploadedFile) :
    ((uploadRejected file ALLOWED_IMAGE_EXTENSIONS = true ↔
        (search_image st file).2 = st ∧
        (search_image st file).1.response = .redirect "/" ∧
        ∃ fl ∈ (search_image st file).1.flashes, fl.category = "warning") ∧
      (uploadRejected file ALLOWED_IMAGE_EXTENSIONS = false →
        ∃ f, file = some f ∧
          (search_image st file).2 =
            { st with imageFiles := storePut st.imageFiles (secure_filename f.filename) f.content })) ∧
    ((uploadRejected file ALLOWED_VIDEO_EXTENSIONS = true ↔
        (search_video st file).2 = st ∧
        (search_video st file).1.response = .redirect "/" ∧
        ∃ fl ∈ (search_video st file).1.flashes, fl.category = "warning") ∧
      (uploadRejected file ALLOWED_VIDEO_EXTENSIONS = false →
        ∃ f, file = some f ∧
          (search_video st file).2 =
            { st with videoFiles := storePut st.videoFiles (secure_filename f.filename) f.content })) := by
  cases file with
  | none =>
    refine ⟨⟨?_, ?_⟩, ⟨?_, ?_⟩⟩
    · constructor
      · intro _
        exact ⟨rfl, rfl, ⟨"Please choose a sketch or photo to upload.", "warning"⟩,
          by simp [search_image], rfl⟩
      · intro _
        rfl
    · intro hfalse
      simp [uploadRejected] at hfalse
    · constructor
      · intro _
        exact ⟨rfl, rfl, ⟨"Please choose a CCTV/video file to upload.", "warning"⟩,
          by simp [search_video], rfl⟩
      · intro _
        rfl
    · intro hfalse
      simp [uploadRejected] at hfalse
  | some f =>
    by_cases hfn : f.filename = []
    · refine ⟨⟨?_, ?_⟩, ⟨?_, ?_⟩⟩
      · constructor
        · intro _
          exact ⟨by simp [search_image, hfn], by simp [search_image, hfn],
            ⟨"Please choose a sketch or photo to upload.", "warning"⟩,
            by simp [search_image, hfn], rfl⟩
        · intro _
          simp [uploadRejected, hfn]
      · intro hfalse
        simp [uploadRejected, hfn] at hfalse
      · constructor
        · intro _
          exact ⟨by simp [search_video, hfn], by simp [search_video, hfn],
            ⟨"Please choose a CCTV/video file to upload.", "warning"⟩,
            by simp [search_video, hfn], rfl⟩
        · intro _
          simp [uploadRejected, hfn]
      · intro hfalse
        simp [uploadRejected, hfn] at hfalse
    · refine ⟨⟨?_, ?_⟩, ⟨?_, ?_⟩⟩
      · by_cases hal : allowed_file f.filename ALLOWED_IMAGE_EXTENSIONS = true
        · constructor
          · intro hrej
            simp [uploadRejected, hfn, hal] at hrej
          · rintro ⟨-, hresp, -⟩
            simp [search_image, hfn, hal] at hresp
        · have hal' : allowed_file f.filename ALLOWED_IMAGE_EXTENSIONS = false :=
            Bool.eq_false_iff.mpr hal
          constructor
          · intro _
            exact ⟨by simp [search_image, hfn, hal'], by simp [search_image, hfn, hal'],
              ⟨"Unsupported image type. Please upload a JPG or PNG.", "warning"⟩,
              by simp [search_image, hfn, hal'], rfl⟩
          · intro _
            simp [uploadRejected, hal']
      · intro hfalse
        have hal : allowed_file f.filename ALLOWED_IMAGE_EXTENSIONS = true := by
          by_contra hc
          simp [uploadRejected, hfn, Bool.eq_false_iff.mpr hc] at hfalse
        exact ⟨f, rfl, by simp [search_image, hfn, hal]⟩
      · by_cases hal : allowed_file f.filename ALLOWED_VIDEO_EXTENSIONS = true
        · constructor
          · intro hrej
            simp [uploadRejected, hfn, hal] at hrej
          · rintro ⟨-, hresp, -⟩
            simp [search_video, hfn, hal] at hresp
        · have hal' : allowed_file f.filename ALLOWED_VIDEO_EXTENSIONS = false :=
            Bool.eq_false_iff.mpr hal
          constructor
          · intro _
            exact ⟨by simp [search_video, hfn, hal'], by simp [search_video, hfn, hal'],
              ⟨"Unsupported video type. Please upload MP4 / AVI / MOV / MKV.", "warning"⟩,
              by simp [search_video, hfn, hal'], rfl⟩
          · intro _
            simp [uploadRejected, hal']
      · intro hfalse
        have hal : allowed_file f.filename ALLOWED_VIDEO_EXTENSIONS = true := by
          by_contra hc
          simp [uploadRejected, hfn, Bool.eq_false_iff.mpr hc] at hfalse
        exact ⟨f, rfl, by simp [search_video, hfn, hal]⟩

/-- Witness for C3: a `.exe` upload is rejected by the image endpoint with a
warning and no state change. -/
theorem spec_C3_witness :
    uploadRejected (some ⟨"virus.exe".data, [1]⟩) ALLOWED_IMAGE_EXTENSIONS = true ∧
    (search_image initialState (some ⟨"virus.exe".data, [1]⟩)).2 = initialState ∧
    (search_image initialState (some ⟨"virus.exe".data, [1]⟩)).1.response = .redirect "/" ∧
    ∃ fl ∈ (search_image initialState (some ⟨"virus.exe".data, [1]⟩)).1.flashes,
      fl.category = "warning" :=
  ⟨by decide,
   ((spec_C3 initialState (some ⟨"virus.exe".data, [1]⟩)).1.1.mp (by decide)).1,
   ((spec_C3 initialState (some ⟨"virus.exe".data, [1]⟩)).1.1.mp (by decide)).2.1,
   ((spec_C3 initialState (some ⟨"virus.exe".data, [1]⟩)).1.1.mp (by decide)).2.2⟩

end Sketchy

namespace Sketchy

/-- C6: registration rejects — state untouched, redirect back to the register
form, a flash emitted — exactly when a stripped field is empty, the password
and confirmation differ, the username is under 3 characters, or the username
already exists; otherwise it appends exactly one row, whose stored
`password_hash` is the hash of the password and never the plaintext, and
redirects to the login page. -/
theorem spec_C6 (st : AppState) (u p c : List Char) :
    (registerRejects st u p c ↔
      (register_post st u p c).2 = st ∧
      (register_post st u p c).1.response = .redirect "/register" ∧
      (register_post st u p c).1.flashes ≠ []) ∧
    (¬registerRejects st u p c →
      (register_post st u p c).2.db =
        st.db ++ [⟨st.nextId, pyStrip u, generate_password_hash (pyStrip p)⟩] ∧
      (register_post st u p c).1.response = .redirect "/login" ∧
      generate_password_hash (pyStrip p) ≠ pyStrip p) := by
  have hfind : (st.db.find? (fun r => r.username == pyStrip u)).isSome ↔
      ∃ r ∈ st.db, r.username = pyStrip u := by
    rw [List.find?_isSome]
    constructor
    · rintro ⟨x, hx, he⟩
      exact ⟨x, hx, by simpa using he⟩
    · rintro ⟨x, hx, he⟩
      exact ⟨x, hx, by simpa using he⟩
  have hlen : generate_password_hash (pyStrip p) ≠ pyStrip p := by
    intro he
    have hl := congrArg List.length he
    rw [generate_password_hash, List.length_append] at hl
    have h17 : ("scrypt:32768:8:1$".data).length = 17 := rfl
    omega
  by_cases h1 : pyStrip u = [] ∨ pyStrip p = [] ∨ pyStrip c = []
  · have hrej : registerRejects st u p c := by
      unfold registerRejects
      tauto
    have hout : register_post st u p c =
        (⟨.redirect "/register", [⟨"Please fill in all fields.", "warning"⟩]⟩, st) := by
      simp [register_post, register_core, h1]
    refine ⟨?_, fun hn => absurd hrej hn⟩
    rw [hout]
    exact ⟨fun _ => ⟨rfl, rfl, by simp⟩, fun _ => hrej⟩
  · by_cases h2 : pyStrip p ≠ pyStrip c
    · have hrej : registerRejects st u p c := by
        unfold registerRejects
        tauto
      have hout : register_post st u p c =
          (⟨.redirect "/register", [⟨"Passwords do not match.", "warning"⟩]⟩, st) := by
        simp [register_post, register_core, h1, h2]
      refine ⟨?_, fun hn => absurd hrej hn⟩
      rw [hout]
      exact ⟨fun _ => ⟨rfl, rfl, by simp⟩, fun _ => hrej⟩
    · by_cases h3 : (pyStrip u).length < 3
      · have hrej : registerRejects st u p c := by
          unfold registerRejects
          tauto
        have hout : register_post st u p c =
            (⟨.redirect "/register", [⟨"Username must be at least 3 characters.", "warning"⟩]⟩, st) := by
          simp [register_post, register_core, h1, h2, h3]
        refine ⟨?_, fun hn => absurd hrej hn⟩
        rw [hout]
        exact ⟨fun _ => ⟨rfl, rfl, by simp⟩, fun _ => hrej⟩
      · by_cases h4 : (st.db.find? (fun r => r.username == pyStrip u)).isSome
        · have hrej : registerRejects st u p c := by
            unfold registerRejects
            have := hfind.mp h4
            tauto
          have hout : register_post st u p c =
              (⟨.redirect "/register",
                [⟨"Username is already taken. Please choose another.", "warning"⟩]⟩, st) := by
            simp [register_post, register_core, h1, h2, h3, h4]
          refine ⟨?_, fun hn => absurd hrej hn⟩
          rw [hout]
          exact ⟨fun _ => ⟨rfl, rfl, by simp⟩, fun _ => hrej⟩
        · have hnrej : ¬registerRejects st u p c := by
            intro hr
            rcases hr with h | h | h | h | h | h
            · exact h1 (Or.inl h)
            · exact h1 (Or.inr (Or.inl h))
            · exact h1 (Or.inr (Or.inr h))
            · exact h2 h
            · exact h3 h
            · exact h4 (hfind.mpr h)
          have hout : register_post st u p c =
              (⟨.redirect "/login", [⟨"Account created successfully. Please log in.", "success"⟩]⟩,
               { st with
                   db := st.db ++ [⟨st.nextId, pyStrip u, generate_password_hash (pyStrip p)⟩],
                   nextId := st.nextId + 1 }) := by
            simp [register_post, register_core, h1, h2, h3, h4]
          constructor
          · constructor
            · intro hr
              exact absurd hr hnrej
            · rintro ⟨-, hresp, -⟩
              rw [hout] at hresp
              simp at hresp
          · intro _
            rw [hout]
            exact ⟨rfl, rfl, hlen⟩

/-- Witness for C6: a valid registration on the fresh state inserts exactly
the one hashed row and redirects to login. -/
theorem spec_C6_witness :
    (register_post initialState "alice".data "pw".data "pw".data).2.db =
      initialState.db ++ [⟨initialState.nextId, pyStrip "alice".data,
        generate_password_hash (pyStrip "pw".data)⟩] ∧
    (register_post initialState "alice".data "pw".data "pw".data).1.response =
      .redirect "/login" :=
  ⟨((spec_C6 initialState "alice".data "pw".data "pw".data).2
      (by unfold registerRejects; decide)).1,
   ((spec_C6 initialState "alice".data "pw".data "pw".data).2
      (by unfold registerRejects; decide)).2.1⟩

end Sketchy

namespace Sketchy

/-- `search_image` either leaves the state alone or saves one allowed file
into the image store. -/
theorem search_image_state_shape (st : AppState) (file : Option UploadedFile) :
    (search_image st file).2 = st ∨
    ∃ f, file = some f ∧ allowed_file f.filename ALLOWED_IMAGE_EXTENSIONS = true ∧
      (search_image st file).2 =
        { st with imageFiles := storePut st.imageFiles (secure_filename f.filename) f.content } := by
  cases file with
  | none => left; rfl
  | some f =>
    by_cases hfn : f.filename = []
    · left
      simp [search_image, hfn]
    · by_cases hal : allowed_file f.filename ALLOWED_IMAGE_EXTENSIONS = true
      · right
        exact ⟨f, rfl, hal, by simp [search_image, hfn, hal]⟩
      · left
        simp [search_image, hfn, Bool.eq_false_iff.mpr hal]

/-- `search_video` either leaves the state alone or saves one allowed file
into the video store. -/
theorem search_video_state_shape (st : AppState) (file : Option UploadedFile) :
    (search_video st file).2 = st ∨
    ∃ f, file = some f ∧ allowed_file f.filename ALLOWED_VIDEO_EXTENSIONS = true ∧
      (search_video st file).2 =
        { st with videoFiles := storePut st.videoFiles (secure_filename f.filename) f.content } := by
  cases file with
  | none => left; rfl
  | some f =>
    by_cases hfn : f.filename = []
    · left
      simp [search_video, hfn]
    · by_cases hal : allowed_file f.filename ALLOWED_VIDEO_EXTENSIONS = true
      · right
        exact ⟨f, rfl, hal, by simp [search_video, hfn, hal]⟩
      · left
        simp [search_video, hfn, Bool.eq_false_iff.mpr hal]

/-- `register_post` either rejects (state unchanged) or appends the one new
row for a username that was absent from the table. -/
theorem register_post_shape (st : AppState) (u p c : List Char) :
    (register_post st u p c).2 = st ∨
    ((register_post st u p c).2 =
      { st with db := st.db ++ [⟨st.nextId, pyStrip u, generate_password_hash (pyStrip p)⟩],
                nextId := st.nextId + 1 } ∧
     st.db.find? (fun r => r.username == pyStrip u) = none) := by
  by_cases h1 : pyStrip u = [] ∨ pyStrip p = [] ∨ pyStrip c = []
  · left
    simp [register_post, register_core, h1]
  · by_cases h2 : pyStrip p ≠ pyStrip c
    · left
      simp [register_post, register_core, h1, h2]
    · by_cases h3 : (pyStrip u).length < 3
      · left
        simp [register_post, register_core, h1, h2, h3]
      · by_cases h4 : (st.db.find? (fun r => r.username == pyStrip u)).isSome
        · left
          simp [register_post, register_core, h1, h2, h3, h4]
        · right
          exact ⟨by simp [register_post, register_core, h1, h2, h3, h4],
            Option.not_isSome_iff_eq_none.mp h4⟩

/-- `login_post` either leaves the state alone or logs a stored user in. -/
theorem login_post_shape (st : AppState) (u p : List Char) :
    (login_post st u p).2 = st ∨
    ∃ user, user ∈ st.db ∧
      (login_post st u p).2 = { st with sess := ⟨some user.id, some user.username⟩ } := by
  cases hf : st.db.find? (fun r => r.username == pyStrip u) with
  | none =>
    left
    simp [login_post, login_core, hf]
  | some user =>
    by_cases hc : check_password_hash user.password_hash (pyStrip p) = true
    · right
      exact ⟨user, List.mem_of_find?_eq_some hf, by simp [login_post, login_core, hf, hc]⟩
    · left
      simp [login_post, login_core, hf, Bool.eq_false_iff.mpr hc]

/-- C7: username uniqueness is an invariant — every request preserves
pairwise-distinct usernames; registering a username already present leaves
the table unchanged and redirects back to the register form; no request
other than a registration ever writes the table; and the table starts
unique. -/
theorem spec_C7 (st : AppState) (req : Request) :
    (usernamesUnique st.db → usernamesUnique (handle st req).2.db) ∧
    (∀ u p c, (∃ r ∈ st.db, r.username = pyStrip u) →
      (handle st (.postRegister u p c)).2.db = st.db ∧
      (handle st (.postRegister u p c)).1.response = .redirect "/register") ∧
    (isRegisterReq req = false → (handle st req).2.db = st.db) ∧
    usernamesUnique initialState.db := by
  refine ⟨?_, ?_, ?_, List.Pairwise.nil⟩
  · intro hu
    cases req with
    | getIndex =>
      simp only [handle]
      split
      · exact hu
      · exact hu
    | getLogout =>
      simp only [handle]
      split
      · exact hu
      · exact hu
    | postSearchImage f =>
      simp only [handle]
      split
      · rcases search_image_state_shape st f with he | ⟨g, -, -, he⟩ <;> rw [he] <;> exact hu
      · exact hu
    | postSearchVideo f =>
      simp only [handle]
      split
      · rcases search_video_state_shape st f with he | ⟨g, -, -, he⟩ <;> rw [he] <;> exact hu
      · exact hu
    | postRegister u p c =>
      show usernamesUnique (register_post st u p c).2.db
      rcases register_post_shape st u p c with he | ⟨he, hnone⟩
      · rw [he]
        exact hu
      · rw [he]
        show usernamesUnique
          (st.db ++ [(⟨st.nextId, pyStrip u, generate_password_hash (pyStrip p)⟩ : UserRow)])
        unfold usernamesUnique
        rw [List.pairwise_append]
        refine ⟨hu, List.pairwise_singleton _ _, ?_⟩
        intro a ha b hb
        rw [List.mem_singleton.mp hb]
        have := List.find?_eq_none.mp hnone a ha
        simpa using this
    | postLogin u p =>
      show usernamesUnique (login_post st u p).2.db
      rcases login_post_shape st u p with he | ⟨user, -, he⟩ <;> rw [he] <;> exact hu
    | getLogin => exact hu
    | getRegister => exact hu
  · intro u p c hex
    have h4 : (st.db.find? (fun r => r.username == pyStrip u)).isSome := by
      rw [List.find?_isSome]
      obtain ⟨r, hr, he⟩ := hex
      exact ⟨r, hr, by simpa using he⟩
    by_cases h1 : pyStrip u = [] ∨ pyStrip p = [] ∨ pyStrip c = []
    · constructor <;> simp [handle, register_post, register_core, h1]
    · by_cases h2 : pyStrip p ≠ pyStrip c
      · constructor <;> simp [handle, register_post, register_core, h1, h2]
      · by_cases h3 : (pyStrip u).length < 3
        · constructor <;> simp [handle, register_post, register_core, h1, h2, h3]
        · constructor <;> simp [handle, register_post, register_core, h1, h2, h3, h4]
  · intro hreq
    cases req with
    | getIndex =>
      simp only [handle]
      split
      · rfl
      · rfl
    | getLogout =>
      simp only [handle]
      split
      · rfl
      · rfl
    | postSearchImage f =>
      simp only [handle]
      split
      · rcases search_image_state_shape st f with he | ⟨g, -, -, he⟩ <;> rw [he]
      · rfl
    | postSearchVideo f =>
      simp only [handle]
      split
      · rcases search_video_state_shape st f with he | ⟨g, -, -, he⟩ <;> rw [he]
      · rfl
    | postRegister u p c => simp [isRegisterReq] at hreq
    | postLogin u p =>
      show (login_post st u p).2.db = st.db
      rcases login_post_shape st u p with he | ⟨user, -, he⟩ <;> rw [he]
    | getLogin => rfl
    | getRegister => rfl

/-- Witness for C7: re-registering an existing username is rejected and the
table is unchanged. -/
theorem spec_C7_witness :
    (handle ⟨[⟨1, ['b', 'o', 'b'], ['h']⟩], 2, emptySession, [], []⟩
        (.postRegister "bob".data "pw".data "pw".data)).2.db = [⟨1, ['b', 'o', 'b'], ['h']⟩] ∧
    (handle ⟨[⟨1, ['b', 'o', 'b'], ['h']⟩], 2, emptySession, [], []⟩
        (.postRegister "bob".data "pw".data "pw".data)).1.response = .redirect "/register" :=
  (spec_C7 ⟨[⟨1, ['b', 'o', 'b'], ['h']⟩], 2, emptySession, [], []⟩
      (.postRegister "bob".data "pw".data "pw".data)).2.1
    "bob".data "pw".data "pw".data (by decide)

end Sketchy

namespace Sketchy

/-- C8: a login with an existing username but wrong password and a login with
a nonexistent username produce identical observable outcomes — the same
generic flash ("Invalid username or password.", category `danger`), the same
re-rendered login page, and an unchanged state. -/
theorem spec_C8 (st : AppState) (u1 p1 u2 p2 : List Char) (r : UserRow)
    (h1 : st.db.find? (fun row => row.username == pyStrip u1) = some r)
    (h2 : check_password_hash r.password_hash (pyStrip p1) = false)
    (h3 : st.db.find? (fun row => row.username == pyStrip u2) = none) :
    handle st (.postLogin u1 p1) =
      (⟨.renderLogin, [⟨"Invalid username or password.", "danger"⟩]⟩, st) ∧
    handle st (.postLogin u2 p2) =
      (⟨.renderLogin, [⟨"Invalid username or password.", "danger"⟩]⟩, st) ∧
    handle st (.postLogin u1 p1) = handle st (.postLogin u2 p2) := by
  have e1 : handle st (.postLogin u1 p1) =
      (⟨.renderLogin, [⟨"Invalid username or password.", "danger"⟩]⟩, st) := by
    show login_post st u1 p1 = _
    simp [login_post, login_core, h1, h2]
  have e2 : handle st (.postLogin u2 p2) =
      (⟨.renderLogin, [⟨"Invalid username or password.", "danger"⟩]⟩, st) := by
    show login_post st u2 p2 = _
    simp [login_post, login_core, h3]
  exact ⟨e1, e2, e1.trans e2.symm⟩

/-- Witness for C8: wrong password for `alice` and unknown user `bob` give
the very same response. -/
theorem spec_C8_witness :
    handle ⟨[⟨1, "alice".data, generate_password_hash "pw".data⟩], 2, emptySession, [], []⟩
        (.postLogin "alice".data "wrong".data) =
      handle ⟨[⟨1, "alice".data, generate_password_hash "pw".data⟩], 2, emptySession, [], []⟩
        (.postLogin "bob".data "x".data) :=
  (spec_C8 ⟨[⟨1, "alice".data, generate_password_hash "pw".data⟩], 2, emptySession, [], []⟩
      "alice".data "wrong".data "bob".data "x".data
      ⟨1, "alice".data, generate_password_hash "pw".data⟩
      (by decide) (by decide) (by decide)).2.2

/-- C9: over the session states the application itself can produce
(`stateWF`, an invariant preserved by every request), a GET of `/logout`
always answers with a redirect to `/login` and leaves the session cleared,
touching neither the user table nor the upload stores. -/
theorem spec_C9 :
    (∀ st req, stateWF st → stateWF (handle st req).2) ∧
    (∀ st, stateWF st →
      (handle st .getLogout).1.response = .redirect "/login" ∧
      (handle st .getLogout).2.sess = emptySession ∧
      (handle st .getLogout).2.db = st.db ∧
      (handle st .getLogout).2.imageFiles = st.imageFiles ∧
      (handle st .getLogout).2.videoFiles = st.videoFiles) := by
  constructor
  · intro st req hwf
    obtain ⟨hids, hnid, hsess⟩ := hwf
    cases req with
    | getIndex =>
      simp only [handle]
      split
      · exact ⟨hids, hnid, hsess⟩
      · exact ⟨hids, hnid, hsess⟩
    | getLogout =>
      simp only [handle]
      split
      · exact ⟨hids, hnid, Or.inl rfl⟩
      · exact ⟨hids, hnid, hsess⟩
    | postSearchImage f =>
      simp only [handle]
      split
      · rcases search_image_state_shape st f with he | ⟨g, -, -, he⟩ <;> rw [he] <;>
          exact ⟨hids, hnid, hsess⟩
      · exact ⟨hids, hnid, hsess⟩
    | postSearchVideo f =>
      simp only [handle]
      split
      · rcases search_video_state_shape st f with he | ⟨g, -, -, he⟩ <;> rw [he] <;>
          exact ⟨hids, hnid, hsess⟩
      · exact ⟨hids, hnid, hsess⟩
    | postRegister u p c =>
      show stateWF (register_post st u p c).2
      rcases register_post_shape st u p c with he | ⟨he, -⟩
      · rw [he]
        exact ⟨hids, hnid, hsess⟩
      · rw [he]
        refine ⟨?_, Nat.succ_ne_zero _, hsess⟩
        intro r hr
        rcases List.mem_append.mp hr with hin | hnew
        · exact hids r hin
        · rw [List.mem_singleton.mp hnew]
          exact hnid
    | postLogin u p =>
      show stateWF (login_post st u p).2
      rcases login_post_shape st u p with he | ⟨user, hmem, he⟩
      · rw [he]
        exact ⟨hids, hnid, hsess⟩
      · rw [he]
        exact ⟨hids, hnid, Or.inr ⟨user.id, rfl, hids user hmem⟩⟩
    | getLogin => exact ⟨hids, hnid, hsess⟩
    | getRegister => exact ⟨hids, hnid, hsess⟩
  · intro st hwf
    rcases hwf.2.2 with hemp | ⟨n, hn, hne⟩
    · refine ⟨?_, ?_, ?_, ?_, ?_⟩ <;> simp [handle, hemp, sessionTruthy, emptySession]
    · have ht : sessionTruthy st.sess = true := by
        unfold sessionTruthy
        rw [hn]
        simp [hne]
      refine ⟨?_, ?_, ?_, ?_, ?_⟩ <;> simp [handle, ht, logout_view]

/-- Witness for C9: logging out from a logged-in state clears the session
and redirects to login. -/
theorem spec_C9_witness :
    (handle ⟨[], 1, ⟨some 5, some ['u']⟩, [], []⟩ .getLogout).1.response = .redirect "/login" ∧
    (handle ⟨[], 1, ⟨some 5, some ['u']⟩, [], []⟩ .getLogout).2.sess = emptySession :=
  ⟨(spec_C9.2 ⟨[], 1, ⟨some 5, some ['u']⟩, [], []⟩
      ⟨fun r hr => absurd hr (List.not_mem_nil r), Nat.one_ne_zero,
        Or.inr ⟨5, rfl, by decide⟩⟩).1,
   (spec_C9.2 ⟨[], 1, ⟨some 5, some ['u']⟩, [], []⟩
      ⟨fun r hr => absurd hr (List.not_mem_nil r), Nat.one_ne_zero,
        Or.inr ⟨5, rfl, by decide⟩⟩).2.1⟩

/-- Surrounding whitespace is removed by `pyStrip`. -/
theorem pyStrip_pad (u w1 w2 : List Char) (h1 : ∀ c ∈ w1, pyIsSpace c = true)
    (h2 : ∀ c ∈ w2, pyIsSpace c = true) :
    pyStrip (w1 ++ u ++ w2) = pyStrip u := by
  unfold pyStrip
  rw [List.append_assoc, List.dropWhile_append_of_pos h1, List.dropWhile_append]
  split
  next hemp =>
    have hu : u.dropWhile pyIsSpace = [] := by simpa using hemp
    rw [List.dropWhile_eq_nil_iff.mpr h2, hu]
  next hemp =>
    rw [List.reverse_append,
      List.dropWhile_append_of_pos (fun x hx => h2 x (List.mem_reverse.mp hx))]

/-- A whitespace-only field strips to the empty string. -/
theorem pyStrip_all_space (u : List Char) (h : ∀ c ∈ u, pyIsSpace c = true) :
    pyStrip u = [] := by
  unfold pyStrip
  rw [List.dropWhile_eq_nil_iff.mpr h]
  rfl

/-- C10: both `register` and `login` strip surrounding whitespace from the
submitted fields before any validation or lookup, so padded submissions
behave exactly like unpadded ones, and a whitespace-only username is
rejected as empty. -/
theorem spec_C10 (st : AppState) (u p c w1 w2 w3 w4 w5 w6 : List Char)
    (h1 : ∀ ch ∈ w1, pyIsSpace ch = true) (h2 : ∀ ch ∈ w2, pyIsSpace ch = true)
    (h3 : ∀ ch ∈ w3, pyIsSpace ch = true) (h4 : ∀ ch ∈ w4, pyIsSpace ch = true)
    (h5 : ∀ ch ∈ w5, pyIsSpace ch = true) (h6 : ∀ ch ∈ w6, pyIsSpace ch = true) :
    register_post st (w1 ++ u ++ w2) (w3 ++ p ++ w4) (w5 ++ c ++ w6) =
      register_post st u p c ∧
    login_post st (w1 ++ u ++ w2) (w3 ++ p ++ w4) = login_post st u p ∧
    ((∀ ch ∈ u, pyIsSpace ch = true) →
      register_post st u p c =
        (⟨.redirect "/register", [⟨"Please fill in all fields.", "warning"⟩]⟩, st)) := by
  refine ⟨?_, ?_, ?_⟩
  · unfold register_post
    rw [pyStrip_pad u w1 w2 h1 h2, pyStrip_pad p w3 w4 h3 h4, pyStrip_pad c w5 w6 h5 h6]
  · unfold login_post
    rw [pyStrip_pad u w1 w2 h1 h2, pyStrip_pad p w3 w4 h3 h4]
  · intro hu
    have he : pyStrip u = [] := pyStrip_all_space u hu
    simp [register_post, register_core, he]

/-- Witness for C10: padding the username and password with spaces does not
change the outcome of registration. -/
theorem spec_C10_witness :
    register_post initialState (" ".data ++ "ab".data ++ " ".data)
        ("".data ++ "pw".data ++ "".data) ("".data ++ "pw".data ++ "".data) =
      register_post initialState "ab".data "pw".data "pw".data :=
  (spec_C10 initialState "ab".data "pw".data "pw".data " ".data " ".data
    "".data "".data "".data "".data
    (by decide) (by decide) (by decide) (by decide) (by decide) (by decide)).1

end Sketchy

namespace Sketchy

/-- The head of a `dropWhile` result fails the predicate. -/
theorem pred_head_dropWhile {p : Char → Bool} :
    ∀ (l : List Char) (c : Char) (rest : List Char),
      l.dropWhile p = c :: rest → p c = false := by
  intro l
  induction l with
  | nil =>
    intro c rest h
    simp at h
  | cons a t ih =>
    intro c rest h
    rw [List.dropWhile_cons] at h
    split at h
    · exact ih _ _ h
    next hp =>
      injection h with h1 _
      subst h1
      exact Bool.eq_false_iff.mpr hp

/-- A filename containing a dot splits as `prefix ++ "." ++ extension`, with
a dot-free extension. -/
theorem decomp_afterLastDot {fn : List Char} (h : '.' ∈ fn) :
    ∃ pre, fn = pre ++ '.' :: afterLastDot fn ∧ '.' ∉ afterLastDot fn := by
  have hne : fn.reverse.dropWhile (fun c => c != '.') ≠ [] := by
    intro hnil
    have hd := List.dropWhile_eq_nil_iff.mp hnil _ (List.mem_reverse.mpr h)
    simp at hd
  obtain ⟨c, rest, hcr⟩ := List.exists_cons_of_ne_nil hne
  have hc : c = '.' := by
    have := pred_head_dropWhile fn.reverse c rest hcr
    simpa using this
  subst hc
  have hsplit : fn.reverse.takeWhile (fun c => c != '.') ++ '.' :: rest = fn.reverse := by
    rw [← hcr]
    exact List.takeWhile_append_dropWhile _ _
  refine ⟨rest.reverse, ?_, ?_⟩
  · conv_lhs => rw [← List.reverse_reverse fn, ← hsplit]
    rw [List.reverse_append, List.reverse_cons, List.append_assoc]
    rfl
  · intro hmem
    have hmem' : '.' ∈ fn.reverse.takeWhile (fun c => c != '.') := by
      unfold afterLastDot at hmem
      exact List.mem_reverse.mp hmem
    have := List.mem_takeWhile_imp hmem'
    simp at this

/-- No character in the printable range 48-122 is Python whitespace. -/
theorem pyIsSpace_eq_false_of_range {c : Char} (hlo : 48 ≤ c.toNat) (hhi : c.toNat ≤ 122) :
    pyIsSpace c = false := by
  rw [Bool.eq_false_iff]
  intro hc
  have hmem := contains_iff_mem.mp hc
  simp at hmem
  omega

/-- A character whose lowercasing is an ASCII lowercase letter or digit
survives every stage of `secure_filename` unchanged: it is ASCII, not the
path separator, not whitespace, kept by the strip regex, and not stripped by
`.strip("._")`. -/
theorem extChar_props (c : Char)
    (h : (97 ≤ (Char.toLower c).toNat ∧ (Char.toLower c).toNat ≤ 122) ∨
         (48 ≤ (Char.toLower c).toNat ∧ (Char.toLower c).toNat ≤ 57)) :
    c.toNat < 128 ∧ c ≠ '/' ∧ pyIsSpace c = false ∧ keepChar c = true ∧
    dotOrUnderscore c = false ∧ c ≠ '.' := by
  have hval : (65 ≤ c.toNat ∧ c.toNat ≤ 90) ∨
      ((97 ≤ c.toNat ∧ c.toNat ≤ 122) ∨ (48 ≤ c.toNat ∧ c.toNat ≤ 57)) := by
    rcases toLower_cases c with ⟨g1, g2, _⟩ | ⟨_, g2⟩
    · exact Or.inl ⟨g1, g2⟩
    · rw [g2] at h
      exact Or.inr h
  refine ⟨?_, ?_, ?_, ?_, ?_, ?_⟩
  · rcases hval with ⟨a, b⟩ | (⟨a, b⟩ | ⟨a, b⟩) <;> omega
  · intro he
    have hcv : c.toNat = 47 := by rw [he]; decide
    rcases hval with ⟨a, b⟩ | (⟨a, b⟩ | ⟨a, b⟩) <;> omega
  · have hr : 48 ≤ c.toNat ∧ c.toNat ≤ 122 := by
      rcases hval with ⟨a, b⟩ | (⟨a, b⟩ | ⟨a, b⟩) <;> exact ⟨by omega, by omega⟩
    exact pyIsSpace_eq_false_of_range hr.1 hr.2
  · unfold keepChar
    rcases hval with ⟨a, b⟩ | (⟨a, b⟩ | ⟨a, b⟩) <;>
      simp only [Bool.or_eq_true, Bool.and_eq_true, decide_eq_true_eq] <;> tauto
  · rw [Bool.eq_false_iff]
    intro hc
    unfold dotOrUnderscore at hc
    rw [Bool.or_eq_true] at hc
    rcases hc with hc | hc
    · have hcv : c.toNat = 46 := by
        have := eq_of_beq hc
        rw [this]; decide
      rcases hval with ⟨a, b⟩ | (⟨a, b⟩ | ⟨a, b⟩) <;> omega
    · have hcv : c.toNat = 95 := by
        have := eq_of_beq hc
        rw [this]; decide
      rcases hval with ⟨a, b⟩ | (⟨a, b⟩ | ⟨a, b⟩) <;> omega
  · intro he
    have hcv : c.toNat = 46 := by rw [he]; decide
    rcases hval with ⟨a, b⟩ | (⟨a, b⟩ | ⟨a, b⟩) <;> omega

/-- Every character of an allow-listed (lowercased) extension lowercases to
an ASCII letter or digit. -/
theorem ext_chars_good {ext : List Char} {exts : List (List Char)}
    (hexts : exts = ALLOWED_IMAGE_EXTENSIONS ∨ exts = ALLOWED_VIDEO_EXTENSIONS)
    (hm : pyLower ext ∈ exts) :
    ∀ c ∈ ext, (97 ≤ (Char.toLower c).toNat ∧ (Char.toLower c).toNat ≤ 122) ∨
      (48 ≤ (Char.toLower c).toNat ∧ (Char.toLower c).toNat ≤ 57) := by
  intro c hc
  have hmm : Char.toLower c ∈ pyLower ext := List.mem_map_of_mem _ hc
  have hgood : ∀ L ∈ exts, ∀ x ∈ L,
      (97 ≤ x.toNat ∧ x.toNat ≤ 122) ∨ (48 ≤ x.toNat ∧ x.toNat ≤ 57) := by
    rcases hexts with rfl | rfl <;> decide
  exact hgood _ hm _ hmm

/-- `sq` is the identity on whitespace-free text. -/
theorem sq_no_space : ∀ (l : List Char), (∀ c ∈ l, pyIsSpace c = false) → ∀ b, sq b l = l := by
  intro l
  induction l with
  | nil =>
    intro _ b
    rfl
  | cons a t ih =>
    intro h b
    have ha : pyIsSpace a = false := h a (List.mem_cons_self a t)
    simp [sq, ha, ih (fun c hc => h c (List.mem_cons_of_mem a hc)) true]

/-- Joining-after-splitting preserves a nonempty whitespace-free suffix. -/
theorem sq_suffix (s : List Char) (hne : s ≠ []) (hns : ∀ c ∈ s, pyIsSpace c = false) :
    ∀ (p : List Char) (b : Bool), ∃ q, sq b (p ++ s) = q ++ s := by
  intro p
  induction p with
  | nil =>
    intro b
    exact ⟨[], by simpa using sq_no_space s hns b⟩
  | cons a t ih =>
    intro b
    by_cases ha : pyIsSpace a = true
    · obtain ⟨q, hq⟩ := ih false
      cases b with
      | false => exact ⟨q, by simp [sq, ha, hq]⟩
      | true =>
        have hqs : q ++ s ≠ [] := by
          intro h0
          exact hne (List.append_eq_nil.mp h0).2
        obtain ⟨x, xs, hxs⟩ := List.exists_cons_of_ne_nil hqs
        exact ⟨'_' :: q, by simp [sq, ha, hq, hxs]⟩
    · obtain ⟨q, hq⟩ := ih true
      exact ⟨a :: q, by simp [sq, ha, hq]⟩

/-- Stripping leading dots/underscores from `p ++ "." ++ ext` either stops
inside `p` (keeping the dot) or eats through the dot and stops at `ext`. -/
theorem dropWhile_strip_shape (ext : List Char) (hne : ext ≠ [])
    (hext : ∀ c ∈ ext, dotOrUnderscore c = false) :
    ∀ p : List Char,
      (∃ r, (p ++ '.' :: ext).dropWhile dotOrUnderscore = r ++ '.' :: ext) ∨
      (p ++ '.' :: ext).dropWhile dotOrUnderscore = ext := by
  intro p
  induction p with
  | nil =>
    right
    obtain ⟨e, t, het⟩ := List.exists_cons_of_ne_nil hne
    have hee : dotOrUnderscore e = false := hext e (by rw [het]; exact List.mem_cons_self e t)
    rw [List.nil_append, het, List.dropWhile_cons, if_pos (by decide), List.dropWhile_cons,
      if_neg (by simp [hee])]
  | cons a t ih =>
    rw [List.cons_append, List.dropWhile_cons]
    by_cases ha : dotOrUnderscore a = true
    · rw [if_pos ha]
      exact ih
    · rw [if_neg ha]
      left
      exact ⟨a :: t, rfl⟩

/-- Stripping trailing dots/underscores is the identity when the last
character is not one of them. -/
theorem stripTrail_of_getLast {l m : List Char} {e : Char} (hl : l = m ++ [e])
    (he : dotOrUnderscore e = false) :
    (l.reverse.dropWhile dotOrUnderscore).reverse = l := by
  subst hl
  have hrev : (m ++ [e]).reverse = e :: m.reverse := by simp
  rw [hrev, List.dropWhile_cons, if_neg (by simp [he])]
  simp

/-- The text after the last dot of `r ++ "." ++ ext` is `ext` when `ext` is
dot-free. -/
theorem afterLastDot_append_cons (r ext : List Char) (hnd : '.' ∉ ext) :
    afterLastDot (r ++ '.' :: ext) = ext := by
  unfold afterLastDot
  have hrev : (r ++ '.' :: ext).reverse = ext.reverse ++ '.' :: r.reverse := by simp
  rw [hrev, List.takeWhile_append_of_pos (fun a ha => by
    simp only [bne_iff_ne, ne_eq]
    intro hadot
    exact hnd (hadot ▸ List.mem_reverse.mp ha))]
  rw [List.takeWhile_cons, if_neg (by simp)]
  simp

end Sketchy

namespace Sketchy

/-- Sanitizing a filename accepted by `allowed_file` yields a stored name
that either keeps its dot and allow-listed extension, or — when everything
before the dot is stripped away — is exactly the allow-listed extension with
no dot. -/
theorem secure_filename_extOk {fn : List Char} {exts : List (List Char)}
    (hexts : exts = ALLOWED_IMAGE_EXTENSIONS ∨ exts = ALLOWED_VIDEO_EXTENSIONS)
    (hall : allowed_file fn exts = true) :
    extStoredOk exts (secure_filename fn) := by
  obtain ⟨hdot, hmem⟩ := (allowed_file_iff fn exts).mp hall
  obtain ⟨pre, hfneq, hnodot⟩ := decomp_afterLastDot hdot
  have hrange := ext_chars_good hexts hmem
  have hprops : ∀ c ∈ afterLastDot fn, c.toNat < 128 ∧ c ≠ '/' ∧ pyIsSpace c = false ∧
      keepChar c = true ∧ dotOrUnderscore c = false ∧ c ≠ '.' :=
    fun c hc => extChar_props c (hrange c hc)
  have hne : afterLastDot fn ≠ [] := by
    intro h0
    rw [h0] at hmem
    rcases hexts with rfl | rfl <;>
      simp [pyLower, ALLOWED_IMAGE_EXTENSIONS, ALLOWED_VIDEO_EXTENSIONS] at hmem
  have hsf : secure_filename fn =
      ((((sq false ((fn.filter (fun c => c.toNat < 128)).map
            (fun c => if c = '/' then ' ' else c))).filter keepChar).dropWhile
          dotOrUnderscore).reverse.dropWhile dotOrUnderscore).reverse := rfl
  have h1 : fn.filter (fun c => c.toNat < 128) =
      pre.filter (fun c => c.toNat < 128) ++ '.' :: afterLastDot fn := by
    conv_lhs => rw [hfneq]
    rw [List.filter_append]
    congr 1
    apply List.filter_eq_self.mpr
    intro a ha
    rcases List.mem_cons.mp ha with rfl | hmem2
    · decide
    · exact decide_eq_true (hprops a hmem2).1
  have h2 : (pre.filter (fun c => c.toNat < 128) ++ '.' :: afterLastDot fn).map
        (fun c => if c = '/' then ' ' else c) =
      (pre.filter (fun c => c.toNat < 128)).map (fun c => if c = '/' then ' ' else c) ++
        '.' :: afterLastDot fn := by
    have hmapid : List.map (fun c => if c = '/' then ' ' else c) (afterLastDot fn) =
        afterLastDot fn :=
      (List.map_congr_left fun a ha => if_neg (hprops a ha).2.1).trans (List.map_id' _)
    simp only [List.map_append, List.map_cons]
    rw [if_neg (by decide : ¬('.' : Char) = '/'), hmapid]
  obtain ⟨q, hq⟩ := sq_suffix ('.' :: afterLastDot fn) (by simp)
    (fun c hc => by
      rcases List.mem_cons.mp hc with rfl | hmem2
      · decide
      · exact (hprops c hmem2).2.2.1)
    ((pre.filter (fun c => c.toNat < 128)).map (fun c => if c = '/' then ' ' else c)) false
  have h3 : (q ++ '.' :: afterLastDot fn).filter keepChar =
      q.filter keepChar ++ '.' :: afterLastDot fn := by
    rw [List.filter_append]
    congr 1
    apply List.filter_eq_self.mpr
    intro a ha
    rcases List.mem_cons.mp ha with rfl | hmem2
    · decide
    · exact (hprops a hmem2).2.2.2.1
  have hE := List.dropLast_append_getLast hne
  have hlast_mem : (afterLastDot fn).getLast hne ∈ afterLastDot fn := List.getLast_mem hne
  have hlaststrip : dotOrUnderscore ((afterLastDot fn).getLast hne) = false :=
    (hprops _ hlast_mem).2.2.2.2.1
  rcases dropWhile_strip_shape (afterLastDot fn) hne
      (fun c hc => (hprops c hc).2.2.2.2.1) (q.filter keepChar) with ⟨r, hr⟩ | hr
  · have hshape : r ++ '.' :: afterLastDot fn =
        (r ++ '.' :: (afterLastDot fn).dropLast) ++ [(afterLastDot fn).getLast hne] := by
      conv_rhs => rw [List.append_assoc, List.cons_append, hE]
    have hfinal := stripTrail_of_getLast hshape hlaststrip
    have hfin : secure_filename fn = r ++ '.' :: afterLastDot fn := by
      rw [hsf, h1, h2, hq, h3, hr, hfinal]
    rw [hfin]
    exact Or.inl ⟨List.mem_append.mpr (Or.inr (List.mem_cons_self _ _)),
      by rw [afterLastDot_append_cons r _ hnodot]; exact hmem⟩
  · have hshape : afterLastDot fn =
        (afterLastDot fn).dropLast ++ [(afterLastDot fn).getLast hne] := hE.symm
    have hfinal := stripTrail_of_getLast hshape hlaststrip
    have hfin : secure_filename fn = afterLastDot fn := by
      rw [hsf, h1, h2, hq, h3, hr, hfinal]
    rw [hfin]
    exact Or.inr ⟨hnodot, hmem⟩

end Sketchy

namespace Sketchy

/-- C5 (amended): invariant over all requests — every file persisted into the
upload stores has a stored filename that either contains a dot whose
lowercased last extension is in the kind's allow-list, or (when sanitization
strips a leading dot) contains no dot and is itself an allow-listed
extension. -/
theorem spec_C5 (st : AppState) (req : Request)
    (him : ∀ e ∈ st.imageFiles, extStoredOk ALLOWED_IMAGE_EXTENSIONS e.1)
    (hvd : ∀ e ∈ st.videoFiles, extStoredOk ALLOWED_VIDEO_EXTENSIONS e.1) :
    (∀ e ∈ (handle st req).2.imageFiles, extStoredOk ALLOWED_IMAGE_EXTENSIONS e.1) ∧
    (∀ e ∈ (handle st req).2.videoFiles, extStoredOk ALLOWED_VIDEO_EXTENSIONS e.1) := by
  have hput : ∀ (store : List (List Char × List Nat)) (exts : List (List Char))
      (name : List Char) (content : List Nat),
      (∀ e ∈ store, extStoredOk exts e.1) → extStoredOk exts name →
      ∀ e ∈ storePut store name content, extStoredOk exts e.1 := by
    intro store exts name content hstore hname e he
    unfold storePut at he
    rcases List.mem_cons.mp he with rfl | h
    · exact hname
    · exact hstore e (List.mem_filter.mp h).1
  cases req with
  | getIndex =>
    simp only [handle]
    split
    · exact ⟨him, hvd⟩
    · exact ⟨him, hvd⟩
  | getLogout =>
    simp only [handle]
    split
    · exact ⟨him, hvd⟩
    · exact ⟨him, hvd⟩
  | postSearchImage f =>
    simp only [handle]
    split
    · rcases search_image_state_shape st f with he | ⟨g, -, hal, he⟩
      · rw [he]
        exact ⟨him, hvd⟩
      · rw [he]
        exact ⟨hput _ _ _ _ him (secure_filename_extOk (Or.inl rfl) hal), hvd⟩
    · exact ⟨him, hvd⟩
  | postSearchVideo f =>
    simp only [handle]
    split
    · rcases search_video_state_shape st f with he | ⟨g, -, hal, he⟩
      · rw [he]
        exact ⟨him, hvd⟩
      · rw [he]
        exact ⟨him, hput _ _ _ _ hvd (secure_filename_extOk (Or.inr rfl) hal)⟩
    · exact ⟨him, hvd⟩
  | postRegister u p c =>
    show (∀ e ∈ (register_post st u p c).2.imageFiles, extStoredOk ALLOWED_IMAGE_EXTENSIONS e.1) ∧
      ∀ e ∈ (register_post st u p c).2.videoFiles, extStoredOk ALLOWED_VIDEO_EXTENSIONS e.1
    rcases register_post_shape st u p c with he | ⟨he, -⟩ <;> rw [he] <;> exact ⟨him, hvd⟩
  | postLogin u p =>
    show (∀ e ∈ (login_post st u p).2.imageFiles, extStoredOk ALLOWED_IMAGE_EXTENSIONS e.1) ∧
      ∀ e ∈ (login_post st u p).2.videoFiles, extStoredOk ALLOWED_VIDEO_EXTENSIONS e.1
    rcases login_post_shape st u p with he | ⟨user, -, he⟩ <;> rw [he] <;> exact ⟨him, hvd⟩
  | getLogin => exact ⟨him, hvd⟩
  | getRegister => exact ⟨him, hvd⟩

/-- Witness for C5: a logged-in upload of `b.jpg` keeps both stores
extension-acceptable. -/
theorem spec_C5_witness :
    (∀ e ∈ (handle ⟨[], 1, ⟨some 1, some ['u']⟩, [], []⟩
        (.postSearchImage (some ⟨"b.jpg".data, [3]⟩))).2.imageFiles,
      extStoredOk ALLOWED_IMAGE_EXTENSIONS e.1) ∧
    (∀ e ∈ (handle ⟨[], 1, ⟨some 1, some ['u']⟩, [], []⟩
        (.postSearchImage (some ⟨"b.jpg".data, [3]⟩))).2.videoFiles,
      extStoredOk ALLOWED_VIDEO_EXTENSIONS e.1) :=
  spec_C5 ⟨[], 1, ⟨some 1, some ['u']⟩, [], []⟩
    (.postSearchImage (some ⟨"b.jpg".data, [3]⟩))
    (fun e he => absurd he (List.not_mem_nil e))
    (fun e he => absurd he (List.not_mem_nil e))

/-- Counterexample for C5 as stated: uploading the valid filename `.jpg`
while logged in persists the sanitized name `jpg`, which has no dot, so the
stored filename's "text after the last dot" condition fails. -/
theorem spec_C5_counterexample :
    ¬ ∀ e ∈ (handle ⟨[], 1, ⟨some 1, some ['u']⟩, [], []⟩
        (.postSearchImage (some ⟨".jpg".data, [0]⟩))).2.imageFiles,
      '.' ∈ e.1 ∧ pyLower (afterLastDot e.1) ∈ ALLOWED_IMAGE_EXTENSIONS := by
  decide

end Sketchy
